import Mathlib

/-!
Verification of the task-planner agent (src/agent.py) against its
specification.  The file shallowly embeds the two components the claims are
about: the plan-extraction loop of `planner` (agent.py lines 82-98) and the
SQLite-backed decision store (lines 15-65).  Text is modelled as `List Char`;
Python's per-character operations translate directly.  `Char.isDigit` and the
whitespace set model Python's `str.isdigit` / `str.strip` on the ASCII range.
-/

/-! ## Plan extraction (agent.py lines 82-98) -/

/-- Whitespace characters stripped by Python's `str.strip()` (ASCII range). -/
def isPySpace (c : Char) : Bool :=
  c == ' ' || c == '\t' || c == '\n' || c == '\x0b' || c == '\x0c' || c == '\r'

/-- Python `str.strip()`: remove leading and trailing whitespace. -/
def pyStrip (l : List Char) : List Char :=
  ((l.dropWhile isPySpace).reverse.dropWhile isPySpace).reverse

/-- Python `line.split('.', 1)`: split at the first '.', at most once.
If the line has no '.', the result is the one-element list `[line]`;
otherwise it is the part before the first '.' and the part after it. -/
def splitDot1 (line : List Char) : List (List Char) :=
  if line.contains '.' then
    [line.takeWhile (fun c => c != '.'), (line.dropWhile (fun c => c != '.')).drop 1]
  else [line]

/-- The `for line in plan_text.split('\n')` loop of `planner`
(agent.py lines 83-94), with `plan` the accumulator.  A trimmed line is a
candidate when it is non-empty, starts with a digit and is longer than 5
characters; a candidate contributes a step when it has a '.' among its first
10 characters and the trimmed text after the first '.' is longer than 10
characters.  The loop breaks as soon as the accumulator holds 5 steps
(the check sits inside the candidate branch, exactly as in the source). -/
def scanAux : List (List Char) → List (List Char) → List (List Char)
  | [], plan => plan
  | raw :: restLines, plan =>
    match pyStrip raw with
    | [] => scanAux restLines plan
    | c :: cs =>
      if c.isDigit && decide ((c :: cs).length > 5) then
        let plan2 :=
          if ((c :: cs).take 10).contains '.' then
            let parts := splitDot1 (c :: cs)
            if decide (parts.length > 1) then
              let step := pyStrip (parts.getD 1 [])
              if !step.isEmpty && decide (step.length > 10) then plan ++ [step]
              else plan
            else plan
          else plan
        if decide (plan2.length ≥ 5) then plan2 else scanAux restLines plan2
      else scanAux restLines plan

/-- The filler appended by `planner` when fewer than 3 steps were found
(agent.py line 98). -/
def fillerStep : List Char := "Review and validate implementation".data

/-- The `while len(plan) < 3: plan.append("Review and validate implementation")`
loop of `planner` (agent.py lines 97-98): it appends the filler until the
length reaches 3, i.e. it appends `3 - plan.length` copies. -/
def padTo3 (plan : List (List Char)) : List (List Char) :=
  plan ++ List.replicate (3 - plan.length) fillerStep

/-- Split a completion text into lines, as Python's `plan_text.split('\n')`. -/
def toLines (s : String) : List (List Char) := s.data.splitOn '\n'

/-- The plan-extraction routine of `planner` (agent.py lines 82-98), the
spec's `extract_plan`: scan the lines for numbered steps, then pad with the
filler up to a minimum of 3. -/
def extract_plan (plan_text : String) : List (List Char) :=
  padTo3 (scanAux (toLines plan_text) [])

/-- The trimmed text after the first '.' of the trimmed line: the step text a
line contributes when it is accepted. -/
def stepOf (raw : List Char) : List Char :=
  pyStrip ((splitDot1 (pyStrip raw)).getD 1 [])

/-- A line is well-formed (is accepted by the scan of agent.py lines 85-92)
iff its trimmed form is non-empty, digit-led and longer than 5 characters,
has a '.' among its first 10 characters, and the trimmed text after the
first '.' is longer than 10 characters.  The conjuncts mirror the nested
conditions of `scanAux` exactly. -/
def wellFormed (raw : List Char) : Bool :=
  match pyStrip raw with
  | [] => false
  | c :: cs =>
    (c.isDigit && decide ((c :: cs).length > 5))
      && ((c :: cs).take 10).contains '.'
      && decide ((splitDot1 (c :: cs)).length > 1)
      && (!(stepOf raw).isEmpty && decide ((stepOf raw).length > 10))

/-- The steps of all well-formed lines, in line order, with no early stop. -/
def acceptedAll : List (List Char) → List (List Char)
  | [] => []
  | raw :: rest =>
    if wellFormed raw then stepOf raw :: acceptedAll rest else acceptedAll rest

/-! ## Decision store (agent.py lines 15-65)

`init_db` (lines 15-19) creates
`decisions (id INTEGER PRIMARY KEY, timestamp, task, decision, reasoning)` and
`tasks (id INTEGER PRIMARY KEY, task, plan, status)`.  Neither table has any
UNIQUE constraint beyond the `id` primary key.  A table is modelled as the
list of its rows in rowid order (SQLite iterates a table in rowid order, and
`id INTEGER PRIMARY KEY` is the rowid); an INSERT that omits `id` gets the
fresh rowid `max + 1`, so it appends at the end of the list. -/

/-- A row of the `decisions` table. -/
structure DecisionRow where
  id : Nat
  timestamp : String
  task : String
  decision : String
  reasoning : String
deriving DecidableEq, Repr

/-- A row of the `tasks` table.  The `plan` column holds the steps joined
with '|' (agent.py line 36), modelled as the joined character list. -/
structure TaskRow where
  id : Nat
  task : String
  plan : List Char
  status : String
deriving DecidableEq, Repr

/-- The two tables of `agent_decisions.db`, each in rowid order. -/
structure Store where
  decisions : List DecisionRow
  tasks : List TaskRow
deriving DecidableEq, Repr

/-- The rowid SQLite assigns to an INSERT that omits `id`: one more than the
largest existing rowid (1 on an empty table). -/
def nextId (ids : List Nat) : Nat := ids.foldr max 0 + 1

/-- Python `'|'.join(xs)` at the character level. -/
def pyJoin (sep : Char) : List (List Char) → List Char
  | [] => []
  | [x] => x
  | x :: y :: xs => x ++ sep :: pyJoin sep (y :: xs)

/-- Python `s.split('|')` at the character level: split at every separator;
the empty string yields `[[]]`. -/
def pySplit (sep : Char) : List Char → List (List Char)
  | [] => [[]]
  | c :: rest =>
    if c == sep then [] :: pySplit sep rest
    else
      match pySplit sep rest with
      | [] => [[c]]
      | r :: rs => (c :: r) :: rs

/-- `save_decision` (agent.py lines 26-31): INSERT a decisions row with a
fresh id (the `id` column is omitted, so SQLite assigns `max + 1`). -/
def save_decision (task decision reasoning timestamp : String) (st : Store) : Store :=
  { st with decisions :=
      st.decisions ++ [⟨nextId (st.decisions.map (fun d => d.id)), timestamp, task, decision, reasoning⟩] }

/-- `save_full_plan` (agent.py lines 33-38):
`INSERT OR REPLACE INTO tasks (task, plan, status) VALUES (?, ?, ?)` with the
steps joined by '|'.  The `tasks` table (line 18) has no UNIQUE constraint on
`task` and the statement omits `id`, so SQLite assigns a fresh rowid and no
uniqueness conflict can ever arise: the OR REPLACE clause is inert and the
statement always inserts a new row. -/
def save_full_plan (task : String) (plan : List (List Char)) (st : Store) : Store :=
  { st with tasks :=
      st.tasks ++ [⟨nextId (st.tasks.map (fun r => r.id)), task, pyJoin '|' plan, "planned"⟩] }

/-- `get_task_plan` (agent.py lines 58-65):
`SELECT plan FROM tasks WHERE task = ?` with `fetchone()` — the first row in
rowid order whose `task` equals the argument — then split its `plan` on '|';
`[]` when no row matches. -/
def get_task_plan (task : String) (st : Store) : List (List Char) :=
  match st.tasks.find? (fun r => r.task == task) with
  | some r => pySplit '|' r.plan
  | none => []

/-- `delete_decision` (agent.py lines 40-45).  The first statement deletes
the decisions row with the given id; the second runs
`DELETE FROM tasks WHERE task = (SELECT task FROM decisions WHERE id = ?)`,
whose uncorrelated scalar subquery is evaluated against the table as already
modified by the first statement (both run inside the same connection).  A
scalar subquery with no rows yields NULL, and `task = NULL` matches no row. -/
def delete_decision (did : Nat) (st : Store) : Store :=
  let decs := st.decisions.filter (fun d => !(d.id == did))
  let sub : Option String := (decs.find? (fun d => d.id == did)).map (fun d => d.task)
  let tasks :=
    match sub with
    | none => st.tasks
    | some t => st.tasks.filter (fun r => !(r.task == t))
  ⟨decs, tasks⟩

/-- Map ASCII upper-case letters to lower case; SQLite's LIKE is
case-insensitive exactly on this range. -/
def lowerAscii (c : Char) : Char :=
  if 65 ≤ c.toNat ∧ c.toNat ≤ 90 then Char.ofNat (c.toNat + 32) else c

/-- SQLite LIKE matching with fuel: '%' matches any sequence, '_' any single
character, any other pattern character matches ASCII-case-insensitively.
Each recursive call decreases `pattern.length + s.length` by at least one
while the fuel decreases by exactly one, so fuel
`pattern.length + s.length + 1` (as supplied by `sqlLike`) never runs out. -/
def sqlLikeF : Nat → List Char → List Char → Bool
  | 0, _, _ => false
  | _ + 1, [], s => s.isEmpty
  | fuel + 1, p :: ps, s =>
    if p == '%' then
      sqlLikeF fuel ps s ||
        (match s with
         | [] => false
         | _ :: s2 => sqlLikeF fuel (p :: ps) s2)
    else
      match s with
      | [] => false
      | c :: s2 => ((p == '_') || (lowerAscii p == lowerAscii c)) && sqlLikeF fuel ps s2

/-- SQLite `s LIKE pattern` (no ESCAPE clause). -/
def sqlLike (pattern s : List Char) : Bool :=
  sqlLikeF (pattern.length + s.length + 1) pattern s

/-- The LIKE pattern built at agent.py line 51: `f'%{task_input[:30]}%'`. -/
def likePat (task_input : String) : List Char :=
  '%' :: (task_input.data.take 30 ++ ['%'])

/-- `get_recent_decisions` (agent.py lines 47-56).  Python's
`if task_input:` is false for `None` and for the empty string, so both fall
to the unfiltered branch.  `ORDER BY id DESC` on a table stored in ascending
rowid order is `List.reverse`; `LIMIT n` is `List.take n`. -/
def get_recent_decisions (st : Store) (task_input : Option String) : List DecisionRow :=
  match task_input with
  | some s =>
    if s.isEmpty then (st.decisions.reverse).take 10
    else ((st.decisions.filter (fun d => sqlLike (likePat s) d.task.data)).reverse).take 5
  | none => (st.decisions.reverse).take 10

/-- Substring containment (Python `needle in haystack`), used to state the
spec's reading of the `recent` filter. -/
def isSubseg (needle : List Char) (hay : List Char) : Bool :=
  hay.tails.any (fun t => needle.isPrefixOf t)

/-! ## Concrete inputs used to settle individual claims -/

/-- The model reply of the spec's SaaS-dashboard scenario. -/
def saasReply : String :=
  "1. Set up cloud infra\n2. Configure CI/CD\n3. Build dashboard UI\n4. Add auth\n5. Deploy to staging"

/-- A reply with five well-formed numbered lines (every suffix has 12
characters). -/
def fiveLineReply : String :=
  "1. aaaaaaaaaaaa\n2. bbbbbbbbbbbb\n3. cccccccccccc\n4. dddddddddddd\n5. eeeeeeeeeeee"

/-- A reply with no numbered lines at all. -/
def noPlanReply : String :=
  "The model replied with prose and produced no numbered items"

/-- A reply with exactly two well-formed numbered lines. -/
def twoLineReply : String :=
  "1. aaaaaaaaaaaa\n2. bbbbbbbbbbbb\nnothing else here"

/-- A store with one decision (id 1, task "t") and the task plan saved for
"t": the state right after planning "t" once. -/
def bugStore : Store :=
  ⟨[⟨1, "2024-01-01T00:00:00", "t", "Plan Generated: 2 steps", "Generated 2 actionable steps based on task requirements"⟩],
   [⟨1, "t", pyJoin '|' ["alpha step first".data, "beta step second".data], "planned"⟩]⟩

/-- A store whose single decision has an upper-case task, to probe the LIKE
filter of `get_recent_decisions`. -/
def likeStore : Store :=
  ⟨[⟨1, "2024-01-01T00:00:00", "HELLO WORLD PATTERN", "Plan Generated: 3 steps", "r"⟩], []⟩

/-- A store used to exercise `delete_decision` on an id that is absent. -/
def missStore : Store :=
  ⟨[⟨1, "2024-01-01T00:00:00", "a task", "Plan Generated: 3 steps", "r"⟩],
   [⟨1, "a task", pyJoin '|' ["gamma step third".data], "planned"⟩]⟩

/-! ## Lemmas about the scan -/

/-- The scan with early break computes the first `5 - acc.length` accepted
steps beyond the accumulator. -/
theorem scanAux_eq_take (ls : List (List Char)) :
    ∀ acc : List (List Char), acc.length < 5 →
    scanAux ls acc = acc ++ (acceptedAll ls).take (5 - acc.length) := by
  induction ls with
  | nil => intro acc _; simp [scanAux, acceptedAll]
  | cons raw rest ih =>
    intro acc hacc
    have hlt : decide (acc.length ≥ 5) = false := decide_eq_false (by omega)
    rcases h : pyStrip raw with _ | ⟨c, cs⟩
    · have hwf : wellFormed raw = false := by rw [wellFormed, h]
      simp only [scanAux, h]
      simp only [acceptedAll, hwf, Bool.false_eq_true, if_false]
      exact ih acc hacc
    · have hstep : stepOf raw = pyStrip ((splitDot1 (c :: cs)).getD 1 []) := by
        rw [stepOf, h]
      have hwf : wellFormed raw =
          ((c.isDigit && decide ((c :: cs).length > 5))
            && ((c :: cs).take 10).contains '.'
            && decide ((splitDot1 (c :: cs)).length > 1)
            && (!(stepOf raw).isEmpty && decide ((stepOf raw).length > 10))) := by
        rw [wellFormed, h]
      have hltn : ¬ (decide (acc.length ≥ 5) = true) := by
        rw [hlt]; exact Bool.false_ne_true
      simp only [scanAux, h]
      by_cases h1 : (c.isDigit && decide ((c :: cs).length > 5)) = true
      · rw [if_pos h1]
        by_cases h2 : ((c :: cs).take 10).contains '.' = true
        · rw [if_pos h2]
          by_cases h3 : decide ((splitDot1 (c :: cs)).length > 1) = true
          · rw [if_pos h3]
            by_cases h4 : (!(stepOf raw).isEmpty && decide ((stepOf raw).length > 10)) = true
            · have h4' := hstep ▸ h4
              rw [if_pos h4', hstep.symm]
              have hwft : wellFormed raw = true := by
                rw [hwf, h1, h2, h3, h4]; rfl
              simp only [acceptedAll, hwft, if_true]
              by_cases h5 : decide ((acc ++ [stepOf raw]).length ≥ 5) = true
              · rw [if_pos h5]
                have h5' : 5 ≤ (acc ++ [stepOf raw]).length := of_decide_eq_true h5
                have hlen : acc.length = 4 := by
                  simp only [List.length_append, List.length_cons, List.length_nil] at h5'
                  omega
                have h54 : 5 - acc.length = 1 := by omega
                rw [h54]
                simp
              · rw [if_neg h5]
                have h5' : ¬ (5 ≤ (acc ++ [stepOf raw]).length) :=
                  fun hge => h5 (decide_eq_true hge)
                simp only [List.length_append, List.length_cons, List.length_nil] at h5'
                have hlen2 : (acc ++ [stepOf raw]).length < 5 := by
                  simp only [List.length_append, List.length_cons, List.length_nil]
                  omega
                rw [ih (acc ++ [stepOf raw]) hlen2]
                have harith : 5 - acc.length = (5 - (acc ++ [stepOf raw]).length) + 1 := by
                  simp only [List.length_append, List.length_cons, List.length_nil]
                  omega
                rw [harith, List.take_succ_cons, List.append_assoc]
                rfl
            · have h4' := hstep ▸ h4
              rw [if_neg h4', if_neg hltn]
              have hwff : wellFormed raw = false := by
                rw [hwf, Bool.eq_false_iff.mpr h4]
                simp
              simp only [acceptedAll, hwff, Bool.false_eq_true, if_false]
              exact ih acc hacc
          · rw [if_neg h3, if_neg hltn]
            have hwff : wellFormed raw = false := by
              rw [hwf, Bool.eq_false_iff.mpr h3]
              simp
            simp only [acceptedAll, hwff, Bool.false_eq_true, if_false]
            exact ih acc hacc
        · rw [if_neg h2, if_neg hltn]
          have hwff : wellFormed raw = false := by
            rw [hwf, Bool.eq_false_iff.mpr h2]
            simp
          simp only [acceptedAll, hwff, Bool.false_eq_true, if_false]
          exact ih acc hacc
      · rw [if_neg h1]
        have hwff : wellFormed raw = false := by
          rw [hwf, Bool.eq_false_iff.mpr h1]
          simp
        simp only [acceptedAll, hwff, Bool.false_eq_true, if_false]
        exact ih acc hacc

/-- The scan from an empty accumulator yields the first 5 accepted steps. -/
theorem scanAux_nil_eq_take (ls : List (List Char)) :
    scanAux ls [] = (acceptedAll ls).take 5 := by
  simpa using scanAux_eq_take ls [] (by simp)

/-- `acceptedAll` distributes over list concatenation. -/
theorem acceptedAll_append (l1 l2 : List (List Char)) :
    acceptedAll (l1 ++ l2) = acceptedAll l1 ++ acceptedAll l2 := by
  induction l1 with
  | nil => simp [acceptedAll]
  | cons raw rest ih =>
    by_cases hw : wellFormed raw = true
    · simp [acceptedAll, hw, ih]
    · simp [acceptedAll, Bool.eq_false_iff.mpr hw, ih]

/-- Closed form of `extract_plan` in terms of the accepted steps. -/
theorem extract_plan_eq (s : String) :
    extract_plan s = padTo3 ((acceptedAll (toLines s)).take 5) := by
  rw [extract_plan, scanAux_nil_eq_take]

/-! ## Claims C3-C6: the plan extractor -/

/-- C3, counterexample: on the spec's SaaS-scenario reply the extractor does
NOT return the five listed steps.  The line "4. Add auth" has the suffix
"Add auth" of length 8, which fails the `len(step_text) > 10` filter of
agent.py line 91, so the claimed five-element output is not produced. -/
theorem extract_plan_saas_counterexample :
    extract_plan saasReply ≠
      ["Set up cloud infra".data, "Configure CI/CD".data, "Build dashboard UI".data,
       "Add auth".data, "Deploy to staging".data] := by decide

/-- C3, amended: on the SaaS-scenario reply the extractor returns the four
steps whose suffix is longer than 10 characters, in order; "Add auth" is
dropped by the meaningful-content filter. -/
theorem extract_plan_saas_actual :
    extract_plan saasReply =
      ["Set up cloud infra".data, "Configure CI/CD".data, "Build dashboard UI".data,
       "Deploy to staging".data] := by decide

/-- C4: on every input text the extractor terminates (it is a total
function) and returns between 3 and 5 steps, and when no line is
well-formed it returns exactly 3 filler steps. -/
theorem extract_plan_length_bounds (s : String) :
    3 ≤ (extract_plan s).length ∧ (extract_plan s).length ≤ 5
    ∧ (acceptedAll (toLines s) = [] → extract_plan s = List.replicate 3 fillerStep) := by
  have hp := extract_plan_eq s
  have hlen : ((acceptedAll (toLines s)).take 5).length ≤ 5 := by
    rw [List.length_take]; omega
  refine ⟨?_, ?_, ?_⟩
  · rw [hp]
    simp only [padTo3, List.length_append, List.length_replicate]
    omega
  · rw [hp]
    simp only [padTo3, List.length_append, List.length_replicate]
    omega
  · intro hA
    rw [hp, hA]
    rfl

/-- C4, witness at a reply with no numbered lines. -/
theorem extract_plan_length_bounds_witness :
    3 ≤ (extract_plan noPlanReply).length ∧ (extract_plan noPlanReply).length ≤ 5
    ∧ extract_plan noPlanReply = List.replicate 3 fillerStep :=
  ⟨(extract_plan_length_bounds noPlanReply).1,
   (extract_plan_length_bounds noPlanReply).2.1,
   (extract_plan_length_bounds noPlanReply).2.2 (by decide)⟩

/-- C5: on every completion text with at least 5 well-formed numbered lines
the extractor returns exactly the steps of the first 5 such lines, in line
order, with the numbering marker up to the first '.' stripped
(`acceptedAll` lists exactly those stripped suffixes in line order), and the
scan ignores every line after the fifth accepted step. -/
theorem extract_plan_five_wellformed (s : String)
    (h : 5 ≤ (acceptedAll (toLines s)).length) :
    extract_plan s = (acceptedAll (toLines s)).take 5
    ∧ (extract_plan s).length = 5
    ∧ ∀ post : List (List Char),
        scanAux (toLines s ++ post) [] = scanAux (toLines s) [] := by
  have hl : ((acceptedAll (toLines s)).take 5).length = 5 := by
    rw [List.length_take]; omega
  have h1 : extract_plan s = (acceptedAll (toLines s)).take 5 := by
    rw [extract_plan_eq, padTo3, hl]
    simp
  refine ⟨h1, by rw [h1, hl], ?_⟩
  intro post
  rw [scanAux_nil_eq_take, scanAux_nil_eq_take, acceptedAll_append,
    List.take_append_of_le_length h]

/-- C5, witness at a reply with exactly five well-formed lines. -/
theorem extract_plan_five_wellformed_witness :
    extract_plan fiveLineReply = (acceptedAll (toLines fiveLineReply)).take 5
    ∧ (extract_plan fiveLineReply).length = 5
    ∧ scanAux (toLines fiveLineReply ++ ["6. ffffffffffff".data]) []
        = scanAux (toLines fiveLineReply) [] :=
  ⟨(extract_plan_five_wellformed fiveLineReply (by decide)).1,
   (extract_plan_five_wellformed fiveLineReply (by decide)).2.1,
   (extract_plan_five_wellformed fiveLineReply (by decide)).2.2 ["6. ffffffffffff".data]⟩

/-- C6: the filler "Review and validate implementation" is appended exactly
when fewer than 3 steps were accepted, and only up to a total of 3: with
fewer than 3 accepted steps the result is the accepted steps padded to 3
with the filler; with 3 or more accepted steps the result is exactly the
first 5 accepted steps and no filler is added; 0 well-formed lines give 3
fillers and exactly 2 well-formed lines give the 2 steps plus 1 filler. -/
theorem extract_plan_filler_policy (s : String) :
    ((acceptedAll (toLines s)).length < 3 →
      extract_plan s = acceptedAll (toLines s)
        ++ List.replicate (3 - (acceptedAll (toLines s)).length) fillerStep)
    ∧ (3 ≤ (acceptedAll (toLines s)).length →
      extract_plan s = (acceptedAll (toLines s)).take 5)
    ∧ (acceptedAll (toLines s) = [] → extract_plan s = List.replicate 3 fillerStep)
    ∧ ((acceptedAll (toLines s)).length = 2 →
      extract_plan s = acceptedAll (toLines s) ++ [fillerStep]) := by
  have hlow : (acceptedAll (toLines s)).length < 3 →
      extract_plan s = acceptedAll (toLines s)
        ++ List.replicate (3 - (acceptedAll (toLines s)).length) fillerStep := by
    intro hlt
    rw [extract_plan_eq, List.take_of_length_le (by omega), padTo3]
  refine ⟨hlow, ?_, ?_, ?_⟩
  · intro hge
    rw [extract_plan_eq, padTo3]
    have hl3 : 3 ≤ ((acceptedAll (toLines s)).take 5).length := by
      rw [List.length_take]; omega
    rw [Nat.sub_eq_zero_of_le hl3]
    simp
  · intro h0
    have := hlow (by rw [h0]; simp)
    rw [this, h0]
    rfl
  · intro h2
    have := hlow (by omega)
    rw [this, h2]
    rfl

/-- C6, witness at a reply with exactly two well-formed lines. -/
theorem extract_plan_filler_policy_witness :
    extract_plan twoLineReply = acceptedAll (toLines twoLineReply) ++ [fillerStep] :=
  (extract_plan_filler_policy twoLineReply).2.2.2 (by decide)

/-! ## Lemmas about the store -/

/-- Splitting a separator-free string yields that string alone. -/
theorem pySplit_no_sep (sep : Char) (x : List Char) (h : sep ∉ x) :
    pySplit sep x = [x] := by
  induction x with
  | nil => rfl
  | cons c t ih =>
    have hc : (c == sep) = false := beq_eq_false_iff_ne.mpr (fun hce => h (hce ▸ List.mem_cons_self c t))
    rw [pySplit, hc]
    simp only [Bool.false_eq_true, if_false]
    rw [ih (fun hm => h (List.mem_cons_of_mem c hm))]

/-- `pySplit` is never empty. -/
theorem pySplit_ne_nil (sep : Char) (l : List Char) : pySplit sep l ≠ [] := by
  induction l with
  | nil => simp [pySplit]
  | cons c t ih =>
    rw [pySplit]
    by_cases hc : (c == sep) = true
    · simp [hc]
    · rw [if_neg hc]
      rcases hr : pySplit sep t with _ | ⟨r, rs⟩
      · exact absurd hr ih
      · simp

/-- Splitting past a leading separator-free block. -/
theorem pySplit_append_sep (sep : Char) (x r : List Char) (h : sep ∉ x) :
    pySplit sep (x ++ sep :: r) = x :: pySplit sep r := by
  induction x with
  | nil => simp [pySplit]
  | cons c t ih =>
    have hc : (c == sep) = false := beq_eq_false_iff_ne.mpr (fun hce => h (hce ▸ List.mem_cons_self c t))
    rw [List.cons_append, pySplit, hc]
    simp only [Bool.false_eq_true, if_false]
    rw [ih (fun hm => h (List.mem_cons_of_mem c hm))]

/-- Joining then splitting a non-empty sequence of separator-free pieces
gives back the pieces. -/
theorem pySplit_pyJoin (sep : Char) (xs : List (List Char)) (hne : xs ≠ [])
    (h : ∀ x ∈ xs, sep ∉ x) : pySplit sep (pyJoin sep xs) = xs := by
  induction xs with
  | nil => exact absurd rfl hne
  | cons x t ih =>
    rcases t with _ | ⟨y, t'⟩
    · rw [pyJoin, pySplit_no_sep sep x (h x (List.mem_cons_self x []))]
    · rw [pyJoin, pySplit_append_sep sep x _ (h x (List.mem_cons_self x _)),
        ih (by simp) (fun z hz => h z (List.mem_cons_of_mem x hz))]

/-- The number of pieces `pySplit` produces is the separator count plus 1. -/
theorem pySplit_length (sep : Char) (l : List Char) :
    (pySplit sep l).length = l.count sep + 1 := by
  induction l with
  | nil => simp [pySplit]
  | cons c t ih =>
    rw [pySplit, List.count_cons]
    by_cases hc : (c == sep) = true
    · simp [hc, ih]
    · rw [if_neg hc]
      rcases hr : pySplit sep t with _ | ⟨r, rs⟩
      · exact absurd hr (pySplit_ne_nil sep t)
      · have := ih
        rw [hr] at this
        simp only [List.length_cons] at this ⊢
        simp [Bool.eq_false_iff.mpr hc]
        omega

/-- Separator occurrences in a join: one per inner occurrence plus one per
boundary between pieces. -/
theorem pyJoin_count (sep : Char) (xs : List (List Char)) (hne : xs ≠ []) :
    (pyJoin sep xs).count sep
      = (xs.map (fun x => x.count sep)).sum + (xs.length - 1) := by
  induction xs with
  | nil => exact absurd rfl hne
  | cons x t ih =>
    rcases t with _ | ⟨y, t'⟩
    · simp [pyJoin]
    · rw [pyJoin, List.count_append, List.count_cons]
      rw [ih (by simp)]
      simp only [List.map_cons, List.sum_cons, List.length_cons, beq_self_eq_true, if_true]
      omega

/-- `find?` skips a block with no hit. -/
theorem find?_append_none {α : Type} (p : α → Bool) (l1 l2 : List α)
    (h : l1.find? p = none) : (l1 ++ l2).find? p = l2.find? p := by
  rw [List.find?_append, h, Option.none_or]

/-! ## Claims C1, C2, C8, C9: the persistence operations -/

/-- C1: `delete_decision` never removes any `tasks` row — the decisions row
is deleted before the subquery that looks up its task, so the subquery finds
nothing — and concretely, after deleting decision 1 of `bugStore` the
decision is gone but `get_task_plan` for its task still returns the full
saved plan instead of the empty sequence. -/
theorem delete_decision_never_removes_taskplan :
    (∀ (st : Store) (did : Nat), (delete_decision did st).tasks = st.tasks)
    ∧ (delete_decision 1 bugStore).decisions = []
    ∧ get_task_plan "t" (delete_decision 1 bugStore)
        = ["alpha step first".data, "beta step second".data] := by
  refine ⟨?_, by decide, by decide⟩
  intro st did
  have hfind : (st.decisions.filter (fun d => !(d.id == did))).find?
      (fun d => d.id == did) = none := by
    apply List.find?_eq_none.mpr
    intro d hd
    have hmem := (List.mem_filter.mp hd).2
    simp only [Bool.not_eq_eq_eq_not, Bool.not_true] at hmem
    simp [hmem]
  simp only [delete_decision, hfind, Option.map_none']

/-- C2: `save_full_plan` on a task that already has a row inserts a second
row instead of replacing — the `tasks` table has no UNIQUE constraint on
`task`, so `INSERT OR REPLACE` never conflicts — and a subsequent
`get_task_plan` returns the FIRST saved plan, not the second. -/
theorem save_full_plan_inserts_duplicate :
    ((save_full_plan "t" ["second plan step".data]
        (save_full_plan "t" ["first plan step".data] (⟨[], []⟩ : Store))).tasks.length = 2)
    ∧ get_task_plan "t" (save_full_plan "t" ["second plan step".data]
        (save_full_plan "t" ["first plan step".data] (⟨[], []⟩ : Store)))
      = ["first plan step".data]
    ∧ ["first plan step".data] ≠ ["second plan step".data] := by
  refine ⟨by decide, by decide, by decide⟩

/-- C8: deleting an id that identifies no stored decision is a no-op: both
tables are left unchanged (and the operation is a total function, so it
cannot raise). -/
theorem delete_decision_missing_id (st : Store) (did : Nat)
    (h : ∀ d ∈ st.decisions, d.id ≠ did) :
    delete_decision did st = st := by
  have hfilter : st.decisions.filter (fun d => !(d.id == did)) = st.decisions := by
    apply List.filter_eq_self.mpr
    intro d hd
    simp [h d hd]
  have hfind : st.decisions.find? (fun d => d.id == did) = none := by
    apply List.find?_eq_none.mpr
    intro d hd
    simp [h d hd]
  simp only [delete_decision, hfilter, hfind, Option.map_none']

/-- C8, witness: deleting id 99, which `missStore` does not contain. -/
theorem delete_decision_missing_id_witness :
    delete_decision 99 missStore = missStore :=
  delete_decision_missing_id missStore 99 (by decide)

/-- C9: for a task with no pre-existing `tasks` row, saving a non-empty plan
whose steps are non-empty and '|'-free and reading it back returns exactly
the original steps; and if any step contains '|', the read-back differs from
the saved plan (the store joins on '|' and splits on '|'). -/
theorem save_get_roundtrip (st : Store) (task : String) (plan : List (List Char))
    (hfresh : ∀ r ∈ st.tasks, r.task ≠ task)
    (hne : plan ≠ []) :
    ((∀ x ∈ plan, x ≠ [] ∧ '|' ∉ x) →
      get_task_plan task (save_full_plan task plan st) = plan)
    ∧ ((∃ x ∈ plan, '|' ∈ x) →
      get_task_plan task (save_full_plan task plan st) ≠ plan) := by
  have hfindnone : st.tasks.find? (fun r => r.task == task) = none := by
    apply List.find?_eq_none.mpr
    intro r hr
    simp [hfresh r hr]
  have hget : get_task_plan task (save_full_plan task plan st)
      = pySplit '|' (pyJoin '|' plan) := by
    rw [get_task_plan, save_full_plan]
    rw [find?_append_none _ _ _ hfindnone]
    simp [List.find?]
  constructor
  · intro hok
    rw [hget, pySplit_pyJoin '|' plan hne (fun x hx => (hok x hx).2)]
  · rintro ⟨x0, hx0mem, hx0⟩ heq
    have hlen := congrArg List.length heq
    rw [hget, pySplit_length] at hlen
    have hcount := pyJoin_count '|' plan hne
    have hx0count : 1 ≤ x0.count '|' := List.count_pos_iff.mpr hx0
    have hsum : x0.count '|' ≤ (plan.map (fun x => x.count '|')).sum :=
      List.single_le_sum (fun _ _ => Nat.zero_le _) _
        (List.mem_map_of_mem _ hx0mem)
    have hplen : 0 < plan.length := List.length_pos.mpr hne
    omega

/-- C9, witness: a '|'-free two-step plan round-trips; a plan with a '|'
inside a step does not. -/
theorem save_get_roundtrip_witness :
    get_task_plan "w" (save_full_plan "w"
        ["hello world step".data, "another fine step".data] (⟨[], []⟩ : Store))
      = ["hello world step".data, "another fine step".data]
    ∧ get_task_plan "v" (save_full_plan "v" ["bad|step".data] (⟨[], []⟩ : Store))
      ≠ ["bad|step".data] :=
  ⟨(save_get_roundtrip (⟨[], []⟩ : Store) "w"
      ["hello world step".data, "another fine step".data] (by decide) (by decide)).1 (by decide),
   (save_get_roundtrip (⟨[], []⟩ : Store) "v"
      ["bad|step".data] (by decide) (by decide)).2 (by decide)⟩

/-! ## Claims C7, C10: `get_recent_decisions` -/

/-- C7, counterexample: the filtered query is NOT plain substring matching.
SQLite's LIKE is ASCII-case-insensitive, so the filter "hello" returns the
record whose task is "HELLO WORLD PATTERN", whose task does not contain the
filter's first 30 characters as a substring. -/
theorem get_recent_decisions_like_not_substring :
    ¬ (∀ d ∈ get_recent_decisions likeStore (some "hello"),
        isSubseg ("hello".data.take 30) d.task.data = true) := by decide

/-- On a list sorted by strictly descending key, every element left out of
`take k` has a smaller key than every element kept: `take k` is exactly the
top-`k` block. -/
theorem take_most_recent {α : Type} (key : α → Nat) (R : List α) (k : Nat)
    (hp : R.Pairwise (fun a b => key b < key a)) :
    ∀ d ∈ R, d ∉ R.take k → ∀ e ∈ R.take k, key d < key e := by
  intro d hd hdnot e he
  have hp2 : (R.take k ++ R.drop k).Pairwise (fun a b => key b < key a) := by
    rw [List.take_append_drop]; exact hp
  have hcross := (List.pairwise_append.mp hp2).2.2
  have hdmem : d ∈ R.take k ++ R.drop k := by
    rw [List.take_append_drop]; exact hd
  rcases List.mem_append.mp hdmem with hdt | hdd
  · exact absurd hdt hdnot
  · exact hcross e he d hdd

/-- C7, amended: on an id-sorted store, with a non-empty filter,
`get_recent_decisions` returns exactly the `min 5 (number of matching
records)` most recent records whose task matches the SQLite LIKE pattern
`%` ++ (first 30 characters of the filter) ++ `%` (ASCII-case-insensitive,
with '%'/'_' in the filter acting as wildcards) rather than plain substring
containment: the result length is `min 5` the matching count, every returned
record is a matching record of the store, the result is ordered by
descending id, and every matching record left out is older (smaller id) than
every record returned; with no matching record the result is empty; with no
filter the result is the `min 10 (store size)` most recent records, by
descending id, characterised the same way. -/
theorem get_recent_decisions_spec (st : Store) (f : String)
    (hf : f.isEmpty = false)
    (hsorted : st.decisions.Pairwise (fun a b => a.id < b.id)) :
    (get_recent_decisions st (some f)).length
      = min 5 (st.decisions.filter (fun d => sqlLike (likePat f) d.task.data)).length
    ∧ (∀ d ∈ get_recent_decisions st (some f),
        d ∈ st.decisions ∧ sqlLike (likePat f) d.task.data = true)
    ∧ (get_recent_decisions st (some f)).Pairwise (fun a b => b.id < a.id)
    ∧ (∀ d ∈ st.decisions, sqlLike (likePat f) d.task.data = true →
        d ∉ get_recent_decisions st (some f) →
        ∀ e ∈ get_recent_decisions st (some f), d.id < e.id)
    ∧ ((∀ d ∈ st.decisions, sqlLike (likePat f) d.task.data = false) →
        get_recent_decisions st (some f) = [])
    ∧ (get_recent_decisions st none).length = min 10 st.decisions.length
    ∧ (∀ d ∈ get_recent_decisions st none, d ∈ st.decisions)
    ∧ (get_recent_decisions st none).Pairwise (fun a b => b.id < a.id)
    ∧ (∀ d ∈ st.decisions, d ∉ get_recent_decisions st none →
        ∀ e ∈ get_recent_decisions st none, d.id < e.id) := by
  have hsome : get_recent_decisions st (some f)
      = ((st.decisions.filter (fun d => sqlLike (likePat f) d.task.data)).reverse).take 5 := by
    simp [get_recent_decisions, hf]
  have hnone : get_recent_decisions st none = (st.decisions.reverse).take 10 := rfl
  have hdescM : (st.decisions.filter
        (fun d => sqlLike (likePat f) d.task.data)).reverse.Pairwise
      (fun a b => b.id < a.id) :=
    List.pairwise_reverse.mpr (hsorted.sublist (List.filter_sublist _))
  have hdescAll : st.decisions.reverse.Pairwise (fun a b => b.id < a.id) :=
    List.pairwise_reverse.mpr hsorted
  refine ⟨?_, ?_, ?_, ?_, ?_, ?_, ?_, ?_, ?_⟩
  · rw [hsome, List.length_take, List.length_reverse]
  · intro d hd
    rw [hsome] at hd
    exact List.mem_filter.mp (List.mem_reverse.mp (List.mem_of_mem_take hd))
  · rw [hsome]
    exact hdescM.sublist (List.take_sublist _ _)
  · intro d hd hmatch hdnot e he
    rw [hsome] at hdnot he
    exact take_most_recent (fun x => x.id) _ 5 hdescM d
      (List.mem_reverse.mpr (List.mem_filter.mpr ⟨hd, hmatch⟩)) hdnot e he
  · intro hmatchless
    rw [hsome]
    have hfil : st.decisions.filter (fun d => sqlLike (likePat f) d.task.data) = [] := by
      apply List.filter_eq_nil_iff.mpr
      intro d hd
      simp [hmatchless d hd]
    rw [hfil]
    rfl
  · rw [hnone, List.length_take, List.length_reverse]
  · intro d hd
    rw [hnone] at hd
    exact List.mem_reverse.mp (List.mem_of_mem_take hd)
  · rw [hnone]
    exact hdescAll.sublist (List.take_sublist _ _)
  · intro d hd hdnot e he
    rw [hnone] at hdnot he
    exact take_most_recent (fun x => x.id) _ 10 hdescAll d
      (List.mem_reverse.mpr hd) hdnot e he

/-- C7, witness at `likeStore` with the filter "hello". -/
theorem get_recent_decisions_spec_witness :
    (get_recent_decisions likeStore (some "hello")).length
      = min 5 (likeStore.decisions.filter
          (fun d => sqlLike (likePat "hello") d.task.data)).length
    ∧ (∀ d ∈ get_recent_decisions likeStore (some "hello"),
        d ∈ likeStore.decisions ∧ sqlLike (likePat "hello") d.task.data = true)
    ∧ (get_recent_decisions likeStore (some "hello")).Pairwise (fun a b => b.id < a.id)
    ∧ (∀ d ∈ likeStore.decisions, sqlLike (likePat "hello") d.task.data = true →
        d ∉ get_recent_decisions likeStore (some "hello") →
        ∀ e ∈ get_recent_decisions likeStore (some "hello"), d.id < e.id)
    ∧ ((∀ d ∈ likeStore.decisions, sqlLike (likePat "hello") d.task.data = false) →
        get_recent_decisions likeStore (some "hello") = [])
    ∧ (get_recent_decisions likeStore none).length = min 10 likeStore.decisions.length
    ∧ (∀ d ∈ get_recent_decisions likeStore none, d ∈ likeStore.decisions)
    ∧ (get_recent_decisions likeStore none).Pairwise (fun a b => b.id < a.id)
    ∧ (∀ d ∈ likeStore.decisions, d ∉ get_recent_decisions likeStore none →
        ∀ e ∈ get_recent_decisions likeStore none, d.id < e.id) :=
  get_recent_decisions_spec likeStore "hello" (by decide) (by decide)

/-- C10: calling `get_recent_decisions` with the empty string behaves
exactly like calling it with no filter: Python's `if task_input:` treats ""
as absent, so the unfiltered limit-10 branch runs. -/
theorem get_recent_decisions_empty_filter (st : Store) :
    get_recent_decisions st (some "") = get_recent_decisions st none := rfl
